import Mathlib

/-!
# Verification of the datacore mirror/coalescer/rate-limiter core

Shallow embedding, in Lean 4, of the core mechanisms of the `datacore`
service: CUI canonicalization (`cleanCui`, `validateCui`, `normalizeCui`),
the ANAF request bundler (`addGeneralInfoRequest` / `processRequestQueue` /
`sendGeneralInfoBundledRequest`), the mirror cache (`getBalanceSheet` /
`isDataStale`), the balance-sheet backfill planner
(`fetchMissingBalanceSheets` / `areAllIndicatorsZero`), and the fixed-window
rate limiter (`rateLimitMiddleware`).

Conventions of the embedding:
* Timestamps are integer (or natural-number) milliseconds.  All numeric
  values that appear are far below `2^53`, where JavaScript `number`
  arithmetic is exact, so `Int`/`Nat` model them faithfully.
* Strings are modelled as `List Char` (the character data of a JS string).
* `async` functions become pure functions; a fallible upstream call becomes
  an explicit `Except`/oracle argument; persistent-store reads and writes
  become explicit state arguments and results.
-/

namespace Datacore

/-! ## Decimal digit strings

`decToNat` is the value of an all-digit character list, exactly as
JavaScript's `parseInt(s, 10)` accumulates it (left fold, `acc*10 + digit`).
`natToDec` is decimal rendering, modelling JavaScript's
`Number.prototype.toString()` for integers (most significant digit first, no
leading zeros, `0 ↦ "0"`). -/

/-- Numeric value of one decimal digit character. -/
def digitVal (c : Char) : Nat := c.toNat - 48

/-- Value of a digit string, as accumulated by `parseInt(s, 10)`. -/
def decToNat (l : List Char) : Nat := l.foldl (fun a c => 10 * a + digitVal c) 0

/-- Decimal digit character of `n % 10`. -/
def digitChar10 (n : Nat) : Char := Char.ofNat (48 + n % 10)

/-- Helper for `natToDec`: structural recursion on a fuel bound, so that the
kernel can evaluate it. -/
def natToDecAux (fuel : Nat) (n : Nat) : List Char :=
  match fuel with
  | 0 => []
  | fuel + 1 => if n < 10 then [digitChar10 n] else natToDecAux fuel (n / 10) ++ [digitChar10 n]

/-- Decimal rendering of a natural number (JavaScript `n.toString()`). -/
def natToDec (n : Nat) : List Char := natToDecAux (n + 1) n

theorem natToDecAux_fuel (f f' n : Nat) (hf : n < f) (hf' : n < f') :
    natToDecAux f n = natToDecAux f' n := by
  induction f generalizing f' n with
  | zero => omega
  | succ f ih =>
    cases f' with
    | zero => omega
    | succ f' =>
      simp only [natToDecAux]
      by_cases h : n < 10
      · simp [h]
      · rw [if_neg h, if_neg h]
        have hd : n / 10 < n := Nat.div_lt_self (by omega) (by omega)
        rw [ih f' (n / 10) (by omega) (by omega)]

theorem natToDec_unfold (n : Nat) :
    natToDec n = if n < 10 then [digitChar10 n] else natToDec (n / 10) ++ [digitChar10 n] := by
  unfold natToDec
  conv_lhs => rw [natToDecAux]
  by_cases h : n < 10
  · simp [h]
  · rw [if_neg h, if_neg h]
    have hd : n / 10 < n := Nat.div_lt_self (by omega) (by omega)
    rw [natToDecAux_fuel n (n / 10 + 1) (n / 10) (by omega) (by omega)]

/-- JavaScript `parseInt(s, 10)`: parse the longest digit prefix; `none`
models the `NaN` result when the string has no digit prefix.  (Sign
characters and exotic whitespace do not occur in this code base's inputs and
are not modelled.) -/
def jsParseInt (l : List Char) : Option Nat :=
  let d := l.takeWhile Char.isDigit
  if d.isEmpty then none else some (decToNat d)

/-! Basic facts about digit characters and digit strings. -/

theorem toNat_bounds_of_isDigit (c : Char) (h : c.isDigit) :
    48 ≤ c.toNat ∧ c.toNat ≤ 57 := by
  simp [Char.isDigit] at h
  obtain ⟨h1, h2⟩ := h
  exact ⟨h1, h2⟩

theorem digitVal_le_nine (c : Char) (h : c.isDigit) : digitVal c ≤ 9 := by
  have := toNat_bounds_of_isDigit c h
  simp only [digitVal]
  omega

theorem one_le_digitVal (c : Char) (h : c.isDigit) (hne : c ≠ '0') :
    1 ≤ digitVal c := by
  have hb := toNat_bounds_of_isDigit c h
  have h48 : c.toNat ≠ 48 := by
    intro habs
    apply hne
    have hv : c.val = ('0' : Char).val := by
      apply UInt32.ext
      simpa [Char.toNat] using habs
    exact Char.ext hv
  simp only [digitVal]
  omega

theorem digitVal_inj (c d : Char) (hc : c.isDigit) (hd : d.isDigit)
    (h : digitVal c = digitVal d) : c = d := by
  have hbc := toNat_bounds_of_isDigit c hc
  have hbd := toNat_bounds_of_isDigit d hd
  have : c.toNat = d.toNat := by
    simp only [digitVal] at h
    omega
  have hv : c.val = d.val := by
    apply UInt32.ext
    simpa [Char.toNat] using this
  exact Char.ext hv

theorem decToNat_nil : decToNat [] = 0 := rfl

theorem decToNat_cons (c : Char) (l : List Char) :
    decToNat (c :: l) = digitVal c * 10 ^ l.length + decToNat l := by
  have key : ∀ (l : List Char) (a : Nat),
      l.foldl (fun a c => 10 * a + digitVal c) a =
        a * 10 ^ l.length + l.foldl (fun a c => 10 * a + digitVal c) 0 := by
    intro l
    induction l with
    | nil => intro a; simp
    | cons d ds ih =>
      intro a
      simp only [List.foldl_cons, List.length_cons]
      rw [ih (10 * a + digitVal d), ih (10 * 0 + digitVal d)]
      ring
  simp only [decToNat, List.foldl_cons]
  rw [key l (10 * 0 + digitVal c)]
  ring

theorem decToNat_dropWhile_zero (l : List Char) :
    decToNat (l.dropWhile (· == '0')) = decToNat l := by
  induction l with
  | nil => rfl
  | cons c cs ih =>
    by_cases h : c = '0'
    · subst h
      rw [List.dropWhile_cons_of_pos (by simp)]
      rw [ih, decToNat_cons]
      simp [digitVal]
    · rw [List.dropWhile_cons_of_neg (by simp [h])]

theorem decToNat_lt (l : List Char) (hd : ∀ c ∈ l, c.isDigit) :
    decToNat l < 10 ^ l.length := by
  induction l with
  | nil => simp [decToNat_nil]
  | cons c cs ih =>
    rw [decToNat_cons]
    have hc : digitVal c ≤ 9 := digitVal_le_nine c (hd c (by simp))
    have htail : decToNat cs < 10 ^ cs.length := ih (fun x hx => hd x (by simp [hx]))
    have h1 : digitVal c * 10 ^ cs.length + decToNat cs < (digitVal c + 1) * 10 ^ cs.length := by
      have := Nat.add_lt_add_left htail (digitVal c * 10 ^ cs.length)
      calc digitVal c * 10 ^ cs.length + decToNat cs
          < digitVal c * 10 ^ cs.length + 10 ^ cs.length := this
        _ = (digitVal c + 1) * 10 ^ cs.length := by ring
    have h2 : (digitVal c + 1) * 10 ^ cs.length ≤ 10 * 10 ^ cs.length :=
      Nat.mul_le_mul_right _ (by omega)
    have h3 : 10 * 10 ^ cs.length = 10 ^ (c :: cs).length := by
      rw [List.length_cons]; ring
    omega

theorem decToNat_ge (c : Char) (cs : List Char) (hc : c.isDigit) (hne : c ≠ '0') :
    10 ^ cs.length ≤ decToNat (c :: cs) := by
  rw [decToNat_cons]
  have h1 : 1 ≤ digitVal c := one_le_digitVal c hc hne
  have h2 : 1 * 10 ^ cs.length ≤ digitVal c * 10 ^ cs.length :=
    Nat.mul_le_mul_right _ h1
  omega

/-- Fixed-length decimal strings are determined by their value. -/
theorem decToNat_inj_of_length (l1 l2 : List Char)
    (h1 : ∀ c ∈ l1, c.isDigit) (h2 : ∀ c ∈ l2, c.isDigit)
    (hl : l1.length = l2.length) (hv : decToNat l1 = decToNat l2) : l1 = l2 := by
  induction l1 generalizing l2 with
  | nil =>
    cases l2 with
    | nil => rfl
    | cons c cs => simp at hl
  | cons c cs ih =>
    cases l2 with
    | nil => simp at hl
    | cons d ds =>
      simp only [List.length_cons, Nat.succ.injEq] at hl
      rw [decToNat_cons, decToNat_cons, hl] at hv
      have hcs : decToNat cs < 10 ^ ds.length := by
        rw [← hl]; exact decToNat_lt cs (fun x hx => h1 x (by simp [hx]))
      have hds : decToNat ds < 10 ^ ds.length := decToNat_lt ds (fun x hx => h2 x (by simp [hx]))
      have hvd : digitVal c = digitVal d := by
        rcases Nat.lt_trichotomy (digitVal c) (digitVal d) with hlt | heq | hgt
        · exfalso
          have hstep : digitVal c + 1 ≤ digitVal d := hlt
          have : digitVal c * 10 ^ ds.length + decToNat cs
              < digitVal d * 10 ^ ds.length + decToNat ds := by
            calc digitVal c * 10 ^ ds.length + decToNat cs
                < digitVal c * 10 ^ ds.length + 10 ^ ds.length := by omega
              _ = (digitVal c + 1) * 10 ^ ds.length := by ring
              _ ≤ digitVal d * 10 ^ ds.length := Nat.mul_le_mul_right _ hstep
              _ ≤ digitVal d * 10 ^ ds.length + decToNat ds := Nat.le_add_right _ _
          omega
        · exact heq
        · exfalso
          have hstep : digitVal d + 1 ≤ digitVal c := hgt
          have : digitVal d * 10 ^ ds.length + decToNat ds
              < digitVal c * 10 ^ ds.length + decToNat cs := by
            calc digitVal d * 10 ^ ds.length + decToNat ds
                < digitVal d * 10 ^ ds.length + 10 ^ ds.length := by omega
              _ = (digitVal d + 1) * 10 ^ ds.length := by ring
              _ ≤ digitVal c * 10 ^ ds.length := Nat.mul_le_mul_right _ hstep
              _ ≤ digitVal c * 10 ^ ds.length + decToNat cs := Nat.le_add_right _ _
          omega
      have hcd : c = d := digitVal_inj c d (h1 c (by simp)) (h2 d (by simp)) hvd
      have htails : cs = ds := by
        apply ih ds (fun x hx => h1 x (by simp [hx])) (fun x hx => h2 x (by simp [hx])) hl
        rw [hvd] at hv
        omega
      rw [hcd, htails]

/-- On all-digit strings with no leading zero (the empty string standing for
zero), the decimal value is injective. -/
theorem decToNat_inj (l1 l2 : List Char)
    (h1 : ∀ c ∈ l1, c.isDigit) (h2 : ∀ c ∈ l2, c.isDigit)
    (hz1 : ∀ c, l1.head? = some c → c ≠ '0') (hz2 : ∀ c, l2.head? = some c → c ≠ '0')
    (hv : decToNat l1 = decToNat l2) : l1 = l2 := by
  rcases Nat.lt_trichotomy l1.length l2.length with h | h | h
  · exfalso
    cases l2 with
    | nil => simp at h
    | cons d ds =>
      have hge : 10 ^ ds.length ≤ decToNat (d :: ds) :=
        decToNat_ge d ds (h2 d (by simp)) (hz2 d rfl)
      have hlt : decToNat l1 < 10 ^ l1.length := decToNat_lt l1 h1
      have : 10 ^ l1.length ≤ 10 ^ ds.length := by
        apply Nat.pow_le_pow_right (by omega)
        simp at h
        omega
      omega
  · exact decToNat_inj_of_length l1 l2 h1 h2 h hv
  · exfalso
    cases l1 with
    | nil => simp at h
    | cons d ds =>
      have hge : 10 ^ ds.length ≤ decToNat (d :: ds) :=
        decToNat_ge d ds (h1 d (by simp)) (hz1 d rfl)
      have hlt : decToNat l2 < 10 ^ l2.length := decToNat_lt l2 h2
      have : 10 ^ l2.length ≤ 10 ^ ds.length := by
        apply Nat.pow_le_pow_right (by omega)
        simp at h
        omega
      omega

theorem isAlpha_eq_false_of_isDigit (c : Char) (h : c.isDigit) : c.isAlpha = false := by
  by_contra hne
  have h' : c.isAlpha = true := by revert hne; cases c.isAlpha <;> simp
  simp [Char.isAlpha, Char.isUpper, Char.isLower] at h'
  have hb : 48 ≤ c.toNat ∧ c.toNat ≤ 57 := toNat_bounds_of_isDigit c h
  simp [Char.toNat] at hb
  rcases h' with ⟨h1, h2⟩ | ⟨h1, h2⟩
  · have h1' : 65 ≤ c.val.toNat := h1
    omega
  · have h1' : 97 ≤ c.val.toNat := h1
    omega

theorem isWhitespace_eq_false_of_isDigit (c : Char) (h : c.isDigit) :
    c.isWhitespace = false := by
  simp only [Char.isWhitespace, Bool.or_eq_false_iff, decide_eq_false_iff_not]
  refine ⟨⟨⟨?_, ?_⟩, ?_⟩, ?_⟩ <;> intro habs <;> subst habs <;> exact absurd h (by decide)

/-! Correctness of `natToDec` (decimal rendering). -/

theorem digitVal_digitChar10 (n : Nat) : digitVal (digitChar10 n) = n % 10 := by
  have h : n % 10 < 10 := Nat.mod_lt _ (by omega)
  simp only [digitChar10, digitVal]
  set m := n % 10 with hm
  interval_cases m <;> decide

theorem isDigit_digitChar10 (n : Nat) : (digitChar10 n).isDigit = true := by
  have h : n % 10 < 10 := Nat.mod_lt _ (by omega)
  simp only [digitChar10]
  set m := n % 10 with hm
  interval_cases m <;> decide

theorem digitChar10_ne_zero (n : Nat) (h : n % 10 ≠ 0) : digitChar10 n ≠ '0' := by
  have hlt : n % 10 < 10 := Nat.mod_lt _ (by omega)
  simp only [digitChar10]
  set m := n % 10 with hm
  interval_cases m
  · omega
  all_goals decide

theorem decToNat_append_digit (l : List Char) (c : Char) :
    decToNat (l ++ [c]) = 10 * decToNat l + digitVal c := by
  simp [decToNat, List.foldl_append]

theorem decToNat_natToDec (n : Nat) : decToNat (natToDec n) = n := by
  induction n using Nat.strong_induction_on with
  | _ n ih =>
    rw [natToDec_unfold]
    split
    · have h1 : decToNat [digitChar10 n] = digitVal (digitChar10 n) := by
        simp [decToNat]
      rw [h1, digitVal_digitChar10]
      omega
    · rw [decToNat_append_digit, ih (n / 10) (Nat.div_lt_self (by omega) (by omega)),
        digitVal_digitChar10]
      omega

theorem natToDec_inj (m n : Nat) (h : natToDec m = natToDec n) : m = n := by
  rw [← decToNat_natToDec m, ← decToNat_natToDec n, h]

theorem natToDec_ne_nil (n : Nat) : natToDec n ≠ [] := by
  rw [natToDec_unfold]
  split <;> simp

theorem natToDec_all_digit (n : Nat) : ∀ c ∈ natToDec n, c.isDigit = true := by
  induction n using Nat.strong_induction_on with
  | _ n ih =>
    rw [natToDec_unfold]
    split
    · intro c hc
      simp at hc
      subst hc
      exact isDigit_digitChar10 n
    · intro c hc
      rcases List.mem_append.mp hc with hc | hc
      · exact ih (n / 10) (Nat.div_lt_self (by omega) (by omega)) c hc
      · simp at hc
        subst hc
        exact isDigit_digitChar10 n

theorem natToDec_head_ne_zero (n : Nat) (hn : n ≠ 0) :
    ∀ c, (natToDec n).head? = some c → c ≠ '0' := by
  induction n using Nat.strong_induction_on with
  | _ n ih =>
    intro c hc
    rw [natToDec_unfold] at hc
    split at hc
    · rename_i hlt
      simp at hc
      subst hc
      apply digitChar10_ne_zero
      omega
    · rename_i hge
      cases hh : natToDec (n / 10) with
      | nil => exact absurd hh (natToDec_ne_nil (n / 10))
      | cons a t =>
        rw [hh] at hc
        simp at hc
        subst hc
        exact ih (n / 10) (Nat.div_lt_self (by omega) (by omega))
          (by omega) a (by rw [hh]; rfl)

/-! ## CUI canonicalization

Sources: `cleanCui` / `validateCui` in the mirror manager
(`cui.replace(/^RO/i, '')`, `/^\d+$/`), and the bundler's private
`normalizeCui` (`parseInt(cui.toString().trim(), 10).toString()`). -/

/-- `cleanCui`: remove a leading `RO` (case-insensitive). -/
def cleanCui : List Char → List Char
  | r :: o :: rest =>
    if (r = 'R' ∨ r = 'r') ∧ (o = 'O' ∨ o = 'o') then rest else r :: o :: rest
  | l => l

/-- `validateCui`: after removing the `RO` prefix, the rest matches `/^\d+$/`. -/
def validateCui (l : List Char) : Bool :=
  !(cleanCui l).isEmpty && (cleanCui l).all Char.isDigit

/-- JavaScript `String.prototype.trim()`. -/
def jsTrim (l : List Char) : List Char :=
  ((l.dropWhile Char.isWhitespace).reverse.dropWhile Char.isWhitespace).reverse

/-- The bundler's `normalizeCui` on a string argument:
`parseInt(cui.trim(), 10).toString()`; `['N','a','N']` is the rendering of a
`NaN` parse result. -/
def normalizeCui (l : List Char) : List Char :=
  match jsParseInt (jsTrim l) with
  | some n => natToDec n
  | none => ['N', 'a', 'N']

/-- The bundler's `normalizeCui` on a `number` argument:
`parseInt(n.toString().trim(), 10).toString()`. -/
def normalizeCuiNat (n : Nat) : List Char := normalizeCui (natToDec n)

/-- Modelled from the spec (§3 EntityId), for comparison with the
source-derived canonicalization: strip a two-letter country-code prefix
(case-insensitive — any two leading letters). -/
def specStripCountryCode : List Char → List Char
  | a :: b :: rest => if a.isAlpha ∧ b.isAlpha then rest else a :: b :: rest
  | l => l

/-- Modelled from the spec (§3 EntityId): the decimal digit string after
stripping the country-code prefix and leading zeros. -/
def specCanonicalDigits (l : List Char) : List Char :=
  (specStripCountryCode l).dropWhile (· == '0')

/-! Supporting lemmas about the canonicalization pipeline. -/

theorem dropWhile_eq_self_of_all_false {p : Char → Bool} {l : List Char}
    (h : ∀ c ∈ l, p c = false) : l.dropWhile p = l := by
  cases l with
  | nil => rfl
  | cons a t => rw [List.dropWhile_cons_of_neg (by simp [h a (by simp)])]

theorem jsTrim_all_digit (l : List Char) (h : ∀ c ∈ l, c.isDigit = true) :
    jsTrim l = l := by
  unfold jsTrim
  rw [dropWhile_eq_self_of_all_false
    (fun c hc => isWhitespace_eq_false_of_isDigit c (h c hc))]
  rw [dropWhile_eq_self_of_all_false
    (fun c hc => isWhitespace_eq_false_of_isDigit c (h c (List.mem_reverse.mp hc)))]
  exact List.reverse_reverse l

theorem takeWhile_eq_self_of_all {p : Char → Bool} {l : List Char}
    (h : ∀ c ∈ l, p c = true) : l.takeWhile p = l := by
  rw [List.takeWhile_eq_self_iff]
  exact h

theorem jsParseInt_all_digit (l : List Char) (hne : l ≠ [])
    (h : ∀ c ∈ l, c.isDigit = true) : jsParseInt l = some (decToNat l) := by
  unfold jsParseInt
  rw [takeWhile_eq_self_of_all h]
  simp [List.isEmpty_iff, hne]

theorem normalizeCui_all_digit (l : List Char) (hne : l ≠ [])
    (h : ∀ c ∈ l, c.isDigit = true) : normalizeCui l = natToDec (decToNat l) := by
  unfold normalizeCui
  rw [jsTrim_all_digit l h, jsParseInt_all_digit l hne h]

theorem validateCui_clean (l : List Char) (h : validateCui l = true) :
    cleanCui l ≠ [] ∧ ∀ c ∈ cleanCui l, c.isDigit = true := by
  unfold validateCui at h
  rw [Bool.and_eq_true] at h
  obtain ⟨h1, h2⟩ := h
  constructor
  · intro habs
    rw [habs] at h1
    simp at h1
  · exact List.all_eq_true.mp h2

theorem specStrip_eq_cleanCui (l : List Char) (h : validateCui l = true) :
    specStripCountryCode l = cleanCui l := by
  obtain ⟨hne, hdig⟩ := validateCui_clean l h
  match l with
  | [] => rfl
  | [a] => rfl
  | a :: b :: rest =>
    by_cases hro : (a = 'R' ∨ a = 'r') ∧ (b = 'O' ∨ b = 'o')
    · have hclean : cleanCui (a :: b :: rest) = rest := by
        simp only [cleanCui, if_pos hro]
      rw [hclean]
      simp only [specStripCountryCode]
      rw [if_pos]
      rcases hro with ⟨ha, hb⟩
      constructor
      · rcases ha with h | h <;> subst h <;> decide
      · rcases hb with h | h <;> subst h <;> decide
    · have hclean : cleanCui (a :: b :: rest) = a :: b :: rest := by
        simp only [cleanCui, if_neg hro]
      rw [hclean] at hdig
      have ha : a.isDigit := hdig a (by simp)
      simp only [specStripCountryCode]
      rw [if_neg, hclean]
      intro ⟨hA, _⟩
      rw [isAlpha_eq_false_of_isDigit a ha] at hA
      exact Bool.false_ne_true hA

theorem head?_dropWhile_false {p : Char → Bool} (l : List Char) (c : Char)
    (h : (l.dropWhile p).head? = some c) : p c = false := by
  induction l with
  | nil => simp at h
  | cons a t ih =>
    by_cases hp : p a
    · rw [List.dropWhile_cons_of_pos hp] at h
      exact ih h
    · rw [List.dropWhile_cons_of_neg hp] at h
      simp at h
      subst h
      exact Bool.eq_false_iff.mpr hp

/-- Core equivalence between the source canonical key and the spec's
"digit strings after stripping leading zeros match" relation, on nonempty
all-digit strings. -/
theorem natToDec_decToNat_eq_iff (d1 d2 : List Char)
    (h1 : ∀ c ∈ d1, c.isDigit = true) (h2 : ∀ c ∈ d2, c.isDigit = true) :
    natToDec (decToNat d1) = natToDec (decToNat d2) ↔
      d1.dropWhile (· == '0') = d2.dropWhile (· == '0') := by
  constructor
  · intro h
    have hv : decToNat d1 = decToNat d2 := natToDec_inj _ _ h
    apply decToNat_inj
    · intro c hc
      exact h1 c ((List.dropWhile_sublist (l := d1) _).subset hc)
    · intro c hc
      exact h2 c ((List.dropWhile_sublist (l := d2) _).subset hc)
    · intro c hc
      have := head?_dropWhile_false d1 c hc
      simpa using this
    · intro c hc
      have := head?_dropWhile_false d2 c hc
      simpa using this
    · rw [decToNat_dropWhile_zero, decToNat_dropWhile_zero]
      exact hv
  · intro h
    have : decToNat d1 = decToNat d2 := by
      rw [← decToNat_dropWhile_zero d1, ← decToNat_dropWhile_zero d2, h]
    rw [this]

/-- C3: two raw entity identifiers accepted by `validateCui` are assigned
the same canonical key by the pipeline (`cleanCui` to strip the
country-code prefix, then the bundler's `normalizeCui`) exactly when their
decimal digit strings match after stripping the two-letter country-code
prefix (case-insensitive) and leading zeros, as the spec's EntityId section
states.  In particular (see the witness) `"RO000123"` and `"123"` normalize
to the same key. -/
theorem canonicalization_equiv (l1 l2 : List Char)
    (h1 : validateCui l1 = true) (h2 : validateCui l2 = true) :
    (normalizeCui (cleanCui l1) = normalizeCui (cleanCui l2)) ↔
      specCanonicalDigits l1 = specCanonicalDigits l2 := by
  obtain ⟨hne1, hd1⟩ := validateCui_clean l1 h1
  obtain ⟨hne2, hd2⟩ := validateCui_clean l2 h2
  rw [normalizeCui_all_digit _ hne1 hd1, normalizeCui_all_digit _ hne2 hd2]
  unfold specCanonicalDigits
  rw [specStrip_eq_cleanCui l1 h1, specStrip_eq_cleanCui l2 h2]
  exact natToDec_decToNat_eq_iff _ _ hd1 hd2

theorem canonicalization_equiv_witness :
    validateCui ['R', 'O', '0', '0', '0', '1', '2', '3'] = true ∧
    validateCui ['1', '2', '3'] = true ∧
    normalizeCui (cleanCui ['R', 'O', '0', '0', '0', '1', '2', '3']) =
      normalizeCui (cleanCui ['1', '2', '3']) :=
  ⟨by decide, by decide,
    (canonicalization_equiv _ _ (by decide) (by decide)).mpr (by decide)⟩

/-! ## Request bundler: batch resolution (`sendGeneralInfoBundledRequest`)

Source: `anafBundler.ts`.  The upstream `fetch` plus `response.json()` is
modelled as an `Except` argument: `.error` is a rejected fetch (network
error); an `.ok` response carries the HTTP `ok`/`status` flags and the
parsed body.  A `PendingRequest`'s `resolve`/`reject` continuations are
modelled by returning, per enqueued CUI, the `Outcome` with which it is
settled. -/

/-- One record of the upstream response's `found` array; `cui` is the raw
`record.date_generale.cui` string, `payload` stands for the remaining
fields and gives records an identity. -/
structure AnafRecord where
  cui : List Char
  payload : Nat
deriving DecidableEq

/-- The error with which every pending request of a batch is rejected when
the upstream call fails: a rejected `fetch` (network) or a non-success HTTP
status (`ANAF API returned status ...`). -/
inductive UpstreamError where
  | network (msg : List Char)
  | httpStatus (status : Nat)
deriving DecidableEq

/-- Parsed body of a successful upstream response. -/
structure AnafResponseBody where
  found : List AnafRecord
  notFound : List Nat
deriving DecidableEq

/-- An HTTP response: `ok`/`status` plus parsed JSON body. -/
structure HttpResponse where
  ok : Bool
  status : Nat
  body : AnafResponseBody

/-- How one pending request is settled.  `rejectedNotFound` models
`reject(new Error("CUI ... not found"))`, `rejectedNotInResponse` models the
distinct `reject(new Error("CUI ... not in response"))`. -/
inductive Outcome where
  | resolved (r : AnafRecord)
  | rejectedNotFound (cui : Nat)
  | rejectedNotInResponse (cui : Nat)
  | rejectedUpstream (e : UpstreamError)
deriving DecidableEq

/-- JS `Map.set`: overwrite an existing binding for the key, else append. -/
def mapSet (m : List (List Char × AnafRecord)) (k : List Char) (v : AnafRecord) :
    List (List Char × AnafRecord) :=
  if m.any (fun p => p.1 = k) then
    m.map (fun p => if p.1 = k then (k, v) else p)
  else m ++ [(k, v)]

/-- JS `Map.get` (`none` = `undefined`). -/
def mapGet (m : List (List Char × AnafRecord)) (k : List Char) : Option AnafRecord :=
  (m.find? (fun p => p.1 = k)).map (fun p => p.2)

/-- The `foundMap` built from `data.found`, keyed by normalized CUI. -/
def buildFoundMap (found : List AnafRecord) : List (List Char × AnafRecord) :=
  found.foldl (fun m r => mapSet m (normalizeCui r.cui) r) []

/-- The `notFoundSet` built from `data.notFound`, keyed by normalized CUI. -/
def buildNotFoundKeys (notFound : List Nat) : List (List Char) :=
  notFound.map normalizeCuiNat

/-- Settlement of one pending request against the partitioned response:
found-map hit resolves; not-found-set hit rejects with the NotFound error;
otherwise rejects with the distinct "not in response" error. -/
def resolveOne (foundMap : List (List Char × AnafRecord))
    (notFoundKeys : List (List Char)) (c : Nat) : Outcome :=
  let k := normalizeCuiNat c
  match mapGet foundMap k with
  | some r => .resolved r
  | none =>
    if notFoundKeys.contains k then .rejectedNotFound c else .rejectedNotInResponse c

/-- The resolution loop over all items of the batch. -/
def resolveItems (items : List Nat) (body : AnafResponseBody) : List (Nat × Outcome) :=
  items.map fun c =>
    (c, resolveOne (buildFoundMap body.found) (buildNotFoundKeys body.notFound) c)

/-- `sendGeneralInfoBundledRequest`: on a fetch rejection or a non-success
status, the catch block rejects every pending request of the batch with that
same error; otherwise each request is settled by the resolution loop. -/
def sendGeneralInfoBundledRequest (items : List Nat)
    (fetchResult : Except (List Char) HttpResponse) : List (Nat × Outcome) :=
  match fetchResult with
  | .error msg => items.map fun c => (c, .rejectedUpstream (.network msg))
  | .ok resp =>
    if !resp.ok then
      items.map fun c => (c, .rejectedUpstream (.httpStatus resp.status))
    else resolveItems items resp.body

/-! Lookup lemmas for the found-map. -/

theorem mapGet_mapSet_self (m : List (List Char × AnafRecord)) (k : List Char)
    (v : AnafRecord) : mapGet (mapSet m k v) k = some v := by
  unfold mapSet mapGet
  by_cases hany : m.any (fun p => p.1 = k)
  · rw [if_pos hany]
    induction m with
    | nil => simp at hany
    | cons p t ih =>
      by_cases hp : p.1 = k
      · simp [List.find?, hp]
      · have hany' : t.any (fun p => p.1 = k) := by
          simp only [List.any_cons] at hany
          rcases Bool.or_eq_true_iff.mp hany with h | h
          · exact absurd (by simpa using h) hp
          · exact h
        simp only [List.map_cons, if_neg hp]
        rw [List.find?]
        have : (decide (p.1 = k)) = false := by simp [hp]
        rw [this]
        exact ih hany'
  · rw [if_neg hany]
    have hnone : m.find? (fun p => p.1 = k) = none := by
      rw [List.find?_eq_none]
      intro p hp
      simp only [List.any_eq_true] at hany
      push_neg at hany
      simpa using hany p hp
    rw [List.find?_append, hnone]
    simp [List.find?]

theorem mapGet_mapSet_ne (m : List (List Char × AnafRecord)) (k k' : List Char)
    (v : AnafRecord) (hne : k ≠ k') : mapGet (mapSet m k' v) k = mapGet m k := by
  unfold mapSet mapGet
  by_cases hany : m.any (fun p => p.1 = k')
  · rw [if_pos hany]
    clear hany
    induction m with
    | nil => rfl
    | cons p t ih =>
      by_cases hp : p.1 = k'
      · have h1 : (decide (k' = k)) = false := by simp [Ne.symm hne]
        have h2 : (decide (p.1 = k)) = false := by simp [hp, Ne.symm hne]
        simp only [List.map_cons, if_pos hp]
        rw [List.find?, List.find?, h1, h2]
        exact ih
      · simp only [List.map_cons, if_neg hp]
        rw [List.find?, List.find?]
        by_cases hk : p.1 = k
        · simp [hk]
        · have : (decide (p.1 = k)) = false := by simp [hk]
          rw [this]
          exact ih
  · rw [if_neg hany]
    rw [List.find?_append]
    have : List.find? (fun p => p.1 = k) [(k', v)] = none := by
      simp [List.find?, Ne.symm hne]
    rw [this]
    cases m.find? (fun p => p.1 = k) <;> rfl

theorem buildFoundMap_go_no_key (found : List AnafRecord)
    (m : List (List Char × AnafRecord)) (k : List Char)
    (h : ∀ r ∈ found, normalizeCui r.cui ≠ k) :
    mapGet (found.foldl (fun m r => mapSet m (normalizeCui r.cui) r) m) k = mapGet m k := by
  induction found generalizing m with
  | nil => rfl
  | cons f fs ih =>
    rw [List.foldl_cons]
    rw [ih _ (fun r hr => h r (by simp [hr]))]
    exact mapGet_mapSet_ne m k (normalizeCui f.cui) f (fun habs => h f (by simp) habs.symm)

theorem buildFoundMap_lookup (found : List AnafRecord) (r : AnafRecord)
    (hmem : r ∈ found)
    (hnd : (found.map (fun r => normalizeCui r.cui)).Nodup) :
    mapGet (buildFoundMap found) (normalizeCui r.cui) = some r := by
  unfold buildFoundMap
  have main : ∀ (m : List (List Char × AnafRecord)) (fs : List AnafRecord),
      r ∈ fs → (fs.map (fun r => normalizeCui r.cui)).Nodup →
      mapGet (fs.foldl (fun m r => mapSet m (normalizeCui r.cui) r) m)
        (normalizeCui r.cui) = some r := by
    intro m fs
    induction fs generalizing m with
    | nil => intro h; exact absurd h (by simp)
    | cons f fs ih =>
      intro hmem hnd
      rw [List.map_cons, List.nodup_cons] at hnd
      obtain ⟨hnotin, hnd'⟩ := hnd
      rcases List.mem_cons.mp hmem with heq | hmem'
      · subst heq
        rw [List.foldl_cons]
        rw [buildFoundMap_go_no_key fs _ _ ?hkeys]
        · exact mapGet_mapSet_self m _ r
        · intro x hx habs
          exact hnotin (habs ▸ List.mem_map_of_mem _ hx)
      · rw [List.foldl_cons]
        exact ih _ hmem' hnd'
  exact main [] found hmem hnd

theorem buildFoundMap_lookup_none (found : List AnafRecord) (k : List Char)
    (h : ∀ r ∈ found, normalizeCui r.cui ≠ k) :
    mapGet (buildFoundMap found) k = none := by
  unfold buildFoundMap
  rw [buildFoundMap_go_no_key found [] k h]
  rfl

/-- C4: for a dispatched batch whose upstream call succeeds, the result of
`sendGeneralInfoBundledRequest` settles every pending request by the
resolution rule `resolveOne`, and that rule resolves a request with its
matching found record when its canonicalized id has one, rejects it with the
NotFoundError when the canonicalized id is in the not-found set, and rejects
it with the distinct "not in response" error otherwise.  (The found keys are
assumed pairwise distinct, which makes "its matching record" well defined.)
The witness instantiates the spec's scenario: ids `[1,2,3]`,
`found=[{id:1},{id:3}]`, `notFound=[2]`. -/
theorem batch_resolution (items : List Nat) (resp : HttpResponse)
    (hok : resp.ok = true)
    (hnd : (resp.body.found.map (fun r => normalizeCui r.cui)).Nodup) :
    sendGeneralInfoBundledRequest items (.ok resp) =
      items.map (fun c => (c, resolveOne (buildFoundMap resp.body.found)
        (buildNotFoundKeys resp.body.notFound) c)) ∧
    ∀ c : Nat,
      (∀ r ∈ resp.body.found, normalizeCui r.cui = normalizeCuiNat c →
        resolveOne (buildFoundMap resp.body.found) (buildNotFoundKeys resp.body.notFound) c
          = .resolved r) ∧
      ((∀ r ∈ resp.body.found, normalizeCui r.cui ≠ normalizeCuiNat c) →
        normalizeCuiNat c ∈ buildNotFoundKeys resp.body.notFound →
        resolveOne (buildFoundMap resp.body.found) (buildNotFoundKeys resp.body.notFound) c
          = .rejectedNotFound c) ∧
      ((∀ r ∈ resp.body.found, normalizeCui r.cui ≠ normalizeCuiNat c) →
        normalizeCuiNat c ∉ buildNotFoundKeys resp.body.notFound →
        resolveOne (buildFoundMap resp.body.found) (buildNotFoundKeys resp.body.notFound) c
          = .rejectedNotInResponse c) := by
  constructor
  · simp [sendGeneralInfoBundledRequest, hok, resolveItems]
  · intro c
    refine ⟨?_, ?_, ?_⟩
    · intro r hr hkey
      simp only [resolveOne]
      rw [← hkey, buildFoundMap_lookup resp.body.found r hr hnd]
    · intro hnone hmem
      simp only [resolveOne]
      rw [buildFoundMap_lookup_none _ _ hnone]
      have hc : (buildNotFoundKeys resp.body.notFound).contains (normalizeCuiNat c) = true := by
        exact List.elem_iff.mpr hmem
      simp [hc]
      exact hmem
    · intro hnone hmem
      simp only [resolveOne]
      rw [buildFoundMap_lookup_none _ _ hnone]
      have hc : (buildNotFoundKeys resp.body.notFound).contains (normalizeCuiNat c) = false := by
        rw [Bool.eq_false_iff]
        intro habs
        exact hmem (List.elem_iff.mp habs)
      simp [hc]
      exact hmem

theorem batch_resolution_witness :
    sendGeneralInfoBundledRequest [1, 2, 3]
        (.ok ⟨true, 200, ⟨[⟨['1'], 10⟩, ⟨['3'], 30⟩], [2]⟩⟩) =
      [(1, .resolved ⟨['1'], 10⟩), (2, .rejectedNotFound 2),
        (3, .resolved ⟨['3'], 30⟩)] := by
  have h := batch_resolution [1, 2, 3] ⟨true, 200, ⟨[⟨['1'], 10⟩, ⟨['3'], 30⟩], [2]⟩⟩
    rfl (by decide)
  rw [h.1]
  decide

/-- C5: when the dispatched batch's upstream call fails — the `fetch`
rejects (network error) or the response has a non-success HTTP status —
every pending request of the batch is rejected with that same
`UpstreamError`: the result equals the full batch mapped to one identical
rejection, so there is no partial resolution, and no retry occurs (the
function's result is final). -/
theorem batch_upstream_failure (items : List Nat) (msg : List Char) (status : Nat)
    (body : AnafResponseBody) :
    sendGeneralInfoBundledRequest items (.error msg) =
      items.map (fun c => (c, Outcome.rejectedUpstream (.network msg))) ∧
    sendGeneralInfoBundledRequest items (.ok ⟨false, status, body⟩) =
      items.map (fun c => (c, Outcome.rejectedUpstream (.httpStatus status))) :=
  ⟨rfl, rfl⟩

/-! ## Request bundler: queue growth and flushing (`addGeneralInfoRequest`)

Source: `anafBundler.ts`, fields `generalInfoQueue` / `generalInfoTimer` and
the methods `addGeneralInfoRequest` / `flushGeneralInfoQueue`.  The
dispatch-side `requestQueue` is modelled as the list of flushed batches
(`batches`); items are identified by their CUI. -/

/-- The bundler's mutable state: the live queue, whether the wait-window
timer handle is set, and the batches handed to the dispatch queue so far. -/
structure BundlerState where
  queue : List Nat
  timerSet : Bool
  batches : List (List Nat)
deriving DecidableEq

/-- `flushGeneralInfoQueue`: no-op on an empty queue; otherwise take all
items, install a fresh empty queue, clear the timer handle, and append a
dispatch job holding the captured batch. -/
def flushStep (s : BundlerState) : BundlerState :=
  if s.queue.isEmpty then s
  else { queue := [], timerSet := false, batches := s.batches ++ [s.queue] }

/-- `addGeneralInfoRequest`: push the item; start the wait-window timer if
none is running; if the queue has reached `maxSize`
(`env.anafBundleMaxSize`), cancel the timer and flush immediately. -/
def enqueueStep (maxSize : Nat) (s : BundlerState) (i : Nat) : BundlerState :=
  let s1 : BundlerState := { s with queue := s.queue ++ [i] }
  let s2 : BundlerState := if !s1.timerSet then { s1 with timerSet := true } else s1
  if maxSize ≤ s2.queue.length then flushStep { s2 with timerSet := false }
  else s2

/-- External events driving the bundler: an enqueue, or the wait-window
timer firing (which flushes; a cleared timer never fires). -/
inductive BundlerOp where
  | enqueue (i : Nat)
  | timerFire
deriving DecidableEq

def bundlerStep (maxSize : Nat) (s : BundlerState) : BundlerOp → BundlerState
  | .enqueue i => enqueueStep maxSize s i
  | .timerFire => if s.timerSet then flushStep s else s

/-- The bundler's initial state (empty queue, no timer, nothing flushed). -/
def bundlerInit : BundlerState := ⟨[], false, []⟩

/-- The state after a sequence of events. -/
def runBundler (maxSize : Nat) (ops : List BundlerOp) : BundlerState :=
  ops.foldl (bundlerStep maxSize) bundlerInit

/-- The inductive invariant: the live queue is strictly below the batch
bound, and every flushed batch respects the bound. -/
def bundlerInv (maxSize : Nat) (s : BundlerState) : Prop :=
  s.queue.length < maxSize ∧ ∀ b ∈ s.batches, b.length ≤ maxSize

/-- An enqueue that reaches (or would exceed) the capacity bound cancels
the timer and flushes the full batch at once. -/
theorem enqueueStep_at_capacity (maxSize : Nat) (s : BundlerState) (i : Nat)
    (h : maxSize ≤ s.queue.length + 1) :
    enqueueStep maxSize s i = ⟨[], false, s.batches ++ [s.queue ++ [i]]⟩ := by
  obtain ⟨q, t, bs⟩ := s
  simp only at h
  cases t <;> simp [enqueueStep, flushStep, h]

/-- An enqueue strictly below the capacity bound only grows the queue and
(re)arms the timer. -/
theorem enqueueStep_below_capacity (maxSize : Nat) (s : BundlerState) (i : Nat)
    (h : s.queue.length + 1 < maxSize) :
    enqueueStep maxSize s i = ⟨s.queue ++ [i], true, s.batches⟩ := by
  obtain ⟨q, t, bs⟩ := s
  simp only at h
  have hno : ¬ maxSize ≤ q.length + 1 := by omega
  cases t <;> simp [enqueueStep, hno]

theorem flushStep_inv (maxSize : Nat) (hpos : 1 ≤ maxSize) (s : BundlerState)
    (h : bundlerInv maxSize s) : bundlerInv maxSize (flushStep s) := by
  obtain ⟨hq, hb⟩ := h
  unfold flushStep
  by_cases he : s.queue.isEmpty
  · rw [if_pos he]
    exact ⟨hq, hb⟩
  · rw [if_neg he]
    refine ⟨by simpa using hpos, ?_⟩
    intro b hbm
    rcases List.mem_append.mp hbm with h | h
    · exact hb b h
    · simp at h
      subst h
      omega

theorem enqueueStep_inv (maxSize : Nat) (hpos : 1 ≤ maxSize) (s : BundlerState)
    (i : Nat) (h : bundlerInv maxSize s) : bundlerInv maxSize (enqueueStep maxSize s i) := by
  obtain ⟨hq, hb⟩ := h
  by_cases hcap : maxSize ≤ s.queue.length + 1
  · rw [enqueueStep_at_capacity maxSize s i hcap]
    refine ⟨by simpa using hpos, ?_⟩
    intro b hbm
    rcases List.mem_append.mp hbm with hm | hm
    · exact hb b hm
    · simp at hm
      subst hm
      simp
      omega
  · rw [enqueueStep_below_capacity maxSize s i (by omega)]
    refine ⟨by simp; omega, ?_⟩
    intro b hbm
    exact hb b hbm

theorem runBundler_inv (maxSize : Nat) (hpos : 1 ≤ maxSize) (ops : List BundlerOp) :
    bundlerInv maxSize (runBundler maxSize ops) := by
  have init : bundlerInv maxSize bundlerInit := by
    constructor
    · simpa [bundlerInit] using hpos
    · intro b hb
      simp [bundlerInit] at hb
  unfold runBundler
  generalize bundlerInit = s0 at init ⊢
  induction ops generalizing s0 with
  | nil => exact init
  | cons op ops ih =>
    rw [List.foldl_cons]
    apply ih
    cases op with
    | enqueue i => exact enqueueStep_inv maxSize hpos s0 i init
    | timerFire =>
      simp only [bundlerStep]
      by_cases ht : s0.timerSet
      · rw [if_pos ht]
        exact flushStep_inv maxSize hpos s0 init
      · rw [if_neg ht]
        exact init

/-- C8: in every reachable bundler state, an enqueue that brings the live
queue to `maxSize` clears the timer and flushes that batch immediately
(the new state has an empty queue, no timer, and the full batch appended to
the dispatch queue); consequently every dispatched batch — in every
reachable state — has at most `maxSize` requests, and the live queue always
stays strictly below `maxSize`. -/
theorem bundler_flush_at_capacity (maxSize : Nat) (hpos : 1 ≤ maxSize)
    (ops : List BundlerOp) :
    (∀ b ∈ (runBundler maxSize ops).batches, b.length ≤ maxSize) ∧
    (runBundler maxSize ops).queue.length < maxSize ∧
    (∀ i, (runBundler maxSize ops).queue.length + 1 = maxSize →
      enqueueStep maxSize (runBundler maxSize ops) i =
        ⟨[], false, (runBundler maxSize ops).batches ++
          [(runBundler maxSize ops).queue ++ [i]]⟩) := by
  obtain ⟨hq, hb⟩ := runBundler_inv maxSize hpos ops
  refine ⟨hb, hq, ?_⟩
  intro i hcap
  exact enqueueStep_at_capacity maxSize (runBundler maxSize ops) i (by omega)

theorem bundler_flush_at_capacity_witness :
    enqueueStep 2 (runBundler 2 [.enqueue 7]) 8 = ⟨[], false, [[7, 8]]⟩ :=
  (bundler_flush_at_capacity 2 (by decide) [.enqueue 7]).2.2 8 (by decide)

/-! ## Request bundler: dispatch pacing (`processRequestQueue`)

Source: `anafBundler.ts`, `processRequestQueue`.  Each loop iteration reads
`now = Date.now()`, computes the time since the previous dispatch start
(`lastRequestTime`), sleeps for the remainder of `rate`
(`env.anafRateLimitMs`) if that is less than `rate`, then sets
`lastRequestTime` to the moment the dispatch starts and runs the job.

The model takes, per job, the elapsed time `ε` between the previous dispatch
start and the loop-top `Date.now()` read for this job (job duration plus any
scheduling gap, an arbitrary natural number), and returns the sequence of
dispatch start times. -/

/-- Dispatch start times of `processRequestQueue`: `last` is
`lastRequestTime`, one list entry per queued dispatch job. -/
def dispatchStarts (rate : Nat) (last : Nat) : List Nat → List Nat
  | [] => []
  | e :: es =>
    let now := last + e
    let start := if now - last < rate then now + (rate - (now - last)) else now
    start :: dispatchStarts rate start es

/-- C6: for every sequence of dispatch jobs (with arbitrary job durations
and scheduling gaps `es`), any two consecutive dispatch start times produced
by the worker loop are at least the fixed interval `rate` apart. -/
theorem dispatchStarts_head_ge (rate l e : Nat) (es : List Nat) (y : Nat)
    (h : (dispatchStarts rate l (e :: es)).head? = some y) : l + rate ≤ y := by
  simp only [dispatchStarts, List.head?_cons, Option.some.injEq] at h
  subst h
  by_cases hc : l + e - l < rate
  · rw [if_pos hc]
    omega
  · rw [if_neg hc]
    omega

theorem dispatch_starts_spaced (rate last : Nat) (es : List Nat) :
    List.Chain' (fun a b => a + rate ≤ b) (dispatchStarts rate last es) := by
  induction es generalizing last with
  | nil => simp [dispatchStarts]
  | cons e es ih =>
    simp only [dispatchStarts]
    apply List.chain'_cons'.mpr
    refine ⟨?_, ih _⟩
    intro y hy
    cases es with
    | nil => simp [dispatchStarts] at hy
    | cons e2 es2 => exact dispatchStarts_head_ge rate _ e2 es2 y hy

/-! ## Balance sheets and the backfill planner

Source: `anafBalanceSheet.ts`.  A statement's `indicators` object is a
finite map from indicator names to numbers, modelled as an association
list.  The per-year upstream fetch `fetchBalanceSheetFromAnaf` is modelled
by an oracle `fetch : year → FetchOutcome`: `.ok dto denCaen` is a
successful fetch (`denCaen = none` models a missing/empty `den_caen`
field), `.notFound` is the thrown "not found" error for a 404, and `.err`
is any other thrown error. -/

/-- `BalanceSheetDTO`: the year and the named indicator values. -/
structure BalanceSheetDTO where
  an : Nat
  indicators : List (List Char × Int)
deriving DecidableEq

/-- `areAllIndicatorsZero`: `Object.values(indicators).every(val => val === 0)`. -/
def areAllIndicatorsZero (indicators : List (List Char × Int)) : Bool :=
  indicators.all (fun p => p.2 == 0)

/-- `getAllBalanceSheetsForCui` (database read, with the stored rows for
the CUI abstracted as the input list): filters out sheets whose indicators
are all zero. -/
def getAllBalanceSheetsForCui (stored : List BalanceSheetDTO) : List BalanceSheetDTO :=
  stored.filter (fun dto => !areAllIndicatorsZero dto.indicators)

/-- Result of one `fetchBalanceSheetFromAnaf` call. -/
inductive FetchOutcome where
  | ok (dto : BalanceSheetDTO) (denCaen : Option (List Char))
  | notFound
  | err
deriving DecidableEq

/-- Instrumentation of the backfill loop: how the iteration for one probed
year ended.  (Years already present in `existingYears` are skipped without
an upstream call and produce no entry.) -/
inductive YearStep where
  | accepted
  | skippedZero
  | stoppedZero
  | skippedNotFound
  | skippedError
deriving DecidableEq

/-- `if (!latestDenCaen && denCaen) latestDenCaen = denCaen`: capture
`denCaen` from the first (most recent) valid sheet. -/
def denCaenUpdate (den denCaen : Option (List Char)) : Option (List Char) :=
  if den.isNone && denCaen.isSome then denCaen else den

/-- Prepend a log entry to a loop result (instrumentation only). -/
def addLog (e : Nat × YearStep)
    (r : List BalanceSheetDTO × Option (List Char) × List (Nat × YearStep)) :
    List BalanceSheetDTO × Option (List Char) × List (Nat × YearStep) :=
  (r.1, r.2.1, e :: r.2.2)

/-- The loop body of `fetchMissingBalanceSheets`, over an explicit
descending list of candidate years.  Returns the accepted sheets (also the
ones saved to the database), the captured `denCaen` of the first valid
sheet, and the per-probed-year outcome log (newest first). -/
def fetchLoop (fetch : Nat → FetchOutcome) (existing : Nat → Bool) :
    List Nat → List BalanceSheetDTO → Option (List Char) →
    List BalanceSheetDTO × Option (List Char) × List (Nat × YearStep)
  | [], acc, den => (acc, den, [])
  | y :: ys, acc, den =>
    if existing y then fetchLoop fetch existing ys acc den
    else
      match fetch y with
      | .ok dto denCaen =>
        if areAllIndicatorsZero dto.indicators then
          if !acc.isEmpty then (acc, denCaenUpdate den denCaen, [(y, .stoppedZero)])
          else addLog (y, .skippedZero)
            (fetchLoop fetch existing ys acc (denCaenUpdate den denCaen))
        else addLog (y, .accepted)
          (fetchLoop fetch existing ys (acc ++ [dto]) (denCaenUpdate den denCaen))
      | .notFound => addLog (y, .skippedNotFound) (fetchLoop fetch existing ys acc den)
      | .err => addLog (y, .skippedError) (fetchLoop fetch existing ys acc den)

/-- The candidate years `endYear, endYear-1, ..., startYear` (empty when
`endYear < startYear`). -/
def yearsDesc (startYear endYear : Nat) : List Nat :=
  (List.range' startYear (endYear + 1 - startYear)).reverse

/-- `fetchMissingBalanceSheets`: iterate from `endYear` down to
`max(startYear, 2014)` (the ANAF dataset minimum), skipping years already
present. -/
def fetchMissingBalanceSheets (fetch : Nat → FetchOutcome) (existing : Nat → Bool)
    (startYear endYear : Nat) :
    List BalanceSheetDTO × Option (List Char) × List (Nat × YearStep) :=
  fetchLoop fetch existing (yearsDesc (max startYear 2014) endYear) [] none

/-- `getAllBalanceSheets`: `startYear = Math.max(registrationYear, 2014)`. -/
def startYearOf (registrationYear : Nat) : Nat := max registrationYear 2014

/-! The spec's backfill scenario (C2): minSupportedYear 2014, registration
year 2010, current year 2024, cached years {2022, 2023}; upstream all-zero
for 2014–2016, non-zero for 2017–2021 and 2024. -/

/-- C2 scenario upstream oracle. -/
def c2Fetch (y : Nat) : FetchOutcome :=
  if y = 2024 ∨ (2017 ≤ y ∧ y ≤ 2021) then .ok ⟨y, [(['v'], 5)]⟩ none
  else if 2014 ≤ y ∧ y ≤ 2016 then .ok ⟨y, [(['v'], 0)]⟩ none
  else .notFound

/-- C2 scenario cache: years 2022 and 2023 are already stored. -/
def c2Existing (y : Nat) : Bool := y == 2022 || y == 2023

/-- C2, counterexample to the claim as stated: the claim says the planner
"stops before issuing any request for year 2016", but in the scenario the
code does fetch year 2016 — the stop heuristic needs to observe 2016's
all-zero response before breaking, so 2016 is among the probed years. -/
theorem backfill_scenario_requests_2016 :
    2016 ∈ (fetchMissingBalanceSheets c2Fetch c2Existing (startYearOf 2010) 2024).2.2.map
      Prod.fst := by
  decide

/-- C2, amended: in the scenario the planner issues upstream requests for
exactly the years 2024, 2021–2017 (accepted, in newest-first order) and
2016 (observed all-zero after prior acceptances, triggering the stop); it
accepts exactly {2024, 2021, 2020, 2019, 2018, 2017}, and no request is
issued for 2015 or any older year. -/
theorem backfill_scenario_amended :
    (fetchMissingBalanceSheets c2Fetch c2Existing (startYearOf 2010) 2024).2.2 =
      [(2024, .accepted), (2021, .accepted), (2020, .accepted), (2019, .accepted),
        (2018, .accepted), (2017, .accepted), (2016, .stoppedZero)] ∧
    (fetchMissingBalanceSheets c2Fetch c2Existing (startYearOf 2010) 2024).1.map
        (fun d => d.an) = [2024, 2021, 2020, 2019, 2018, 2017] ∧
    2015 ∉ (fetchMissingBalanceSheets c2Fetch c2Existing (startYearOf 2010) 2024).2.2.map
      Prod.fst := by
  decide

/-! Step equations for `fetchLoop`, one per control-flow branch. -/

theorem fetchLoop_cons_existing (fetch : Nat → FetchOutcome) (ex : Nat → Bool)
    (y : Nat) (ys : List Nat) (acc : List BalanceSheetDTO) (den : Option (List Char))
    (hex : ex y = true) :
    fetchLoop fetch ex (y :: ys) acc den = fetchLoop fetch ex ys acc den := by
  simp [fetchLoop, hex]

theorem fetchLoop_cons_stop (fetch : Nat → FetchOutcome) (ex : Nat → Bool)
    (y : Nat) (ys : List Nat) (acc : List BalanceSheetDTO) (den : Option (List Char))
    (dto : BalanceSheetDTO) (denC : Option (List Char))
    (hex : ex y = false) (hf : fetch y = .ok dto denC)
    (hz : areAllIndicatorsZero dto.indicators = true) (hacc : acc ≠ []) :
    fetchLoop fetch ex (y :: ys) acc den =
      (acc, denCaenUpdate den denC, [(y, .stoppedZero)]) := by
  have he : acc.isEmpty = false := by
    cases acc with
    | nil => exact absurd rfl hacc
    | cons a t => rfl
  simp [fetchLoop, hex, hf, hz, he]

theorem fetchLoop_cons_skipZero (fetch : Nat → FetchOutcome) (ex : Nat → Bool)
    (y : Nat) (ys : List Nat) (den : Option (List Char))
    (dto : BalanceSheetDTO) (denC : Option (List Char))
    (hex : ex y = false) (hf : fetch y = .ok dto denC)
    (hz : areAllIndicatorsZero dto.indicators = true) :
    fetchLoop fetch ex (y :: ys) [] den =
      addLog (y, .skippedZero) (fetchLoop fetch ex ys [] (denCaenUpdate den denC)) := by
  simp [fetchLoop, hex, hf, hz]

theorem fetchLoop_cons_accept (fetch : Nat → FetchOutcome) (ex : Nat → Bool)
    (y : Nat) (ys : List Nat) (acc : List BalanceSheetDTO) (den : Option (List Char))
    (dto : BalanceSheetDTO) (denC : Option (List Char))
    (hex : ex y = false) (hf : fetch y = .ok dto denC)
    (hz : areAllIndicatorsZero dto.indicators = false) :
    fetchLoop fetch ex (y :: ys) acc den =
      addLog (y, .accepted)
        (fetchLoop fetch ex ys (acc ++ [dto]) (denCaenUpdate den denC)) := by
  simp [fetchLoop, hex, hf, hz]

theorem fetchLoop_cons_notFound (fetch : Nat → FetchOutcome) (ex : Nat → Bool)
    (y : Nat) (ys : List Nat) (acc : List BalanceSheetDTO) (den : Option (List Char))
    (hex : ex y = false) (hf : fetch y = .notFound) :
    fetchLoop fetch ex (y :: ys) acc den =
      addLog (y, .skippedNotFound) (fetchLoop fetch ex ys acc den) := by
  simp [fetchLoop, hex, hf]

theorem fetchLoop_cons_err (fetch : Nat → FetchOutcome) (ex : Nat → Bool)
    (y : Nat) (ys : List Nat) (acc : List BalanceSheetDTO) (den : Option (List Char))
    (hex : ex y = false) (hf : fetch y = .err) :
    fetchLoop fetch ex (y :: ys) acc den =
      addLog (y, .skippedError) (fetchLoop fetch ex ys acc den) := by
  simp [fetchLoop, hex, hf]

theorem addLog_log (e : Nat × YearStep)
    (r : List BalanceSheetDTO × Option (List Char) × List (Nat × YearStep)) :
    (addLog e r).2.2 = e :: r.2.2 := rfl

/-- The per-year policy of the backfill loop, as a relation between the
per-year fetch outcome and the logged step. -/
def stepMatches (fetch : Nat → FetchOutcome) (y : Nat) (s : YearStep) : Prop :=
  match fetch y with
  | .ok dto _ =>
    if areAllIndicatorsZero dto.indicators = true then
      s = .skippedZero ∨ s = .stoppedZero
    else s = .accepted
  | .notFound => s = .skippedNotFound
  | .err => s = .skippedError

/-- Inductive characterization of the backfill loop: (1) only missing
years within the candidate list are probed; (2) each probed year's step
follows the per-year policy; (3) a stop happens only when an earlier
(newer-year) acceptance exists; (4) an all-zero skip happens only when no
newer-year acceptance exists; (5) every missing candidate year is probed
unless a stop occurred at a newer year. -/
theorem fetchLoop_props (fetch : Nat → FetchOutcome) (ex : Nat → Bool) :
    ∀ (ys : List Nat), ys.Pairwise (· > ·) →
    ∀ (acc : List BalanceSheetDTO) (den : Option (List Char)),
      (∀ y s, (y, s) ∈ (fetchLoop fetch ex ys acc den).2.2 → y ∈ ys ∧ ex y = false) ∧
      (∀ y s, (y, s) ∈ (fetchLoop fetch ex ys acc den).2.2 → stepMatches fetch y s) ∧
      (∀ y, (y, .stoppedZero) ∈ (fetchLoop fetch ex ys acc den).2.2 →
        acc ≠ [] ∨ ∃ y', y' > y ∧ (y', .accepted) ∈ (fetchLoop fetch ex ys acc den).2.2) ∧
      (∀ y, (y, .skippedZero) ∈ (fetchLoop fetch ex ys acc den).2.2 →
        acc = [] ∧ ∀ y', (y', .accepted) ∈ (fetchLoop fetch ex ys acc den).2.2 → y' < y) ∧
      (∀ y, y ∈ ys → ex y = false →
        (∃ s, (y, s) ∈ (fetchLoop fetch ex ys acc den).2.2) ∨
        ∃ y', y' > y ∧ (y', .stoppedZero) ∈ (fetchLoop fetch ex ys acc den).2.2) := by
  intro ys
  induction ys with
  | nil =>
    intro _ acc den
    refine ⟨?_, ?_, ?_, ?_, ?_⟩ <;> intro y <;> simp [fetchLoop]
  | cons y0 ys ih =>
    intro hp acc den
    rw [List.pairwise_cons] at hp
    obtain ⟨hgt, hp'⟩ := hp
    by_cases hex : ex y0
    · rw [fetchLoop_cons_existing fetch ex y0 ys acc den hex]
      obtain ⟨p1, p2, p3, p4, p5⟩ := ih hp' acc den
      refine ⟨?_, p2, p3, p4, ?_⟩
      · intro y s h
        obtain ⟨hm, hf⟩ := p1 y s h
        exact ⟨List.mem_cons_of_mem _ hm, hf⟩
      · intro y hy hf
        rcases List.mem_cons.mp hy with heq | hm
        · subst heq
          rw [hex] at hf
          exact absurd hf (by simp)
        · exact p5 y hm hf
    · rw [Bool.not_eq_true] at hex
      cases hf : fetch y0 with
      | ok dto denC =>
        by_cases hz : areAllIndicatorsZero dto.indicators
        · by_cases hacc : acc = []
          · subst hacc
            rw [fetchLoop_cons_skipZero fetch ex y0 ys den dto denC hex hf hz]
            obtain ⟨p1, p2, p3, p4, p5⟩ := ih hp' [] (denCaenUpdate den denC)
            simp only [addLog_log, List.mem_cons] at *
            refine ⟨?_, ?_, ?_, ?_, ?_⟩
            · intro y s h
              rcases h with h | h
              · simp at h
                exact ⟨Or.inl h.1, h.1 ▸ hex⟩
              · obtain ⟨hm, hfy⟩ := p1 y s h
                exact ⟨Or.inr hm, hfy⟩
            · intro y s h
              rcases h with h | h
              · simp at h
                obtain ⟨h1, h2⟩ := h
                subst h1
                subst h2
                unfold stepMatches
                rw [hf]
                simp [hz]
              · exact p2 y s h
            · intro y h
              rcases h with h | h
              · simp at h
              · rcases p3 y h with habs | ⟨y', hy', hm⟩
                · exact absurd rfl habs
                · exact Or.inr ⟨y', hy', Or.inr hm⟩
            · intro y h
              rcases h with h | h
              · simp at h
                subst h
                refine ⟨by trivial, ?_⟩
                intro y' h'
                rcases h' with h' | h'
                · simp at h'
                · exact hgt y' (p1 y' .accepted h').1
              · obtain ⟨-, hall⟩ := p4 y h
                refine ⟨by trivial, ?_⟩
                intro y' h'
                rcases h' with h' | h'
                · simp at h'
                · exact hall y' h'
            · intro y hy hfy
              rcases hy with heq | hm
              · subst heq
                exact Or.inl ⟨.skippedZero, Or.inl rfl⟩
              · rcases p5 y hm hfy with ⟨s, hs⟩ | ⟨y', hy', hm'⟩
                · exact Or.inl ⟨s, Or.inr hs⟩
                · exact Or.inr ⟨y', hy', Or.inr hm'⟩
          · rw [fetchLoop_cons_stop fetch ex y0 ys acc den dto denC hex hf hz hacc]
            refine ⟨?_, ?_, ?_, ?_, ?_⟩
            · intro y s h
              simp at h
              obtain ⟨h1, h2⟩ := h
              subst h1
              exact ⟨List.mem_cons_self _ _, hex⟩
            · intro y s h
              simp at h
              obtain ⟨h1, h2⟩ := h
              subst h1
              subst h2
              unfold stepMatches
              rw [hf]
              simp [hz]
            · intro y h
              exact Or.inl hacc
            · intro y h
              simp at h
            · intro y hy hfy
              rcases List.mem_cons.mp hy with heq | hm
              · subst heq
                exact Or.inl ⟨.stoppedZero, by simp⟩
              · exact Or.inr ⟨y0, hgt y hm, by simp⟩
        · rw [Bool.not_eq_true] at hz
          rw [fetchLoop_cons_accept fetch ex y0 ys acc den dto denC hex hf hz]
          obtain ⟨p1, p2, p3, p4, p5⟩ :=
            ih hp' (acc ++ [dto]) (denCaenUpdate den denC)
          simp only [addLog_log, List.mem_cons] at *
          refine ⟨?_, ?_, ?_, ?_, ?_⟩
          · intro y s h
            rcases h with h | h
            · simp at h
              exact ⟨Or.inl h.1, h.1 ▸ hex⟩
            · obtain ⟨hm, hfy⟩ := p1 y s h
              exact ⟨Or.inr hm, hfy⟩
          · intro y s h
            rcases h with h | h
            · simp at h
              obtain ⟨h1, h2⟩ := h
              subst h1
              subst h2
              unfold stepMatches
              rw [hf]
              simp [hz]
            · exact p2 y s h
          · intro y h
            rcases h with h | h
            · simp at h
            · refine Or.inr ⟨y0, ?_, Or.inl rfl⟩
              exact hgt y (p1 y .stoppedZero h).1
          · intro y h
            rcases h with h | h
            · simp at h
            · obtain ⟨habs, -⟩ := p4 y h
              exact absurd habs (by simp)
          · intro y hy hfy
            rcases hy with heq | hm
            · subst heq
              exact Or.inl ⟨.accepted, Or.inl rfl⟩
            · rcases p5 y hm hfy with ⟨s, hs⟩ | ⟨y', hy', hm'⟩
              · exact Or.inl ⟨s, Or.inr hs⟩
              · exact Or.inr ⟨y', hy', Or.inr hm'⟩
      | notFound =>
        rw [fetchLoop_cons_notFound fetch ex y0 ys acc den hex hf]
        obtain ⟨p1, p2, p3, p4, p5⟩ := ih hp' acc den
        simp only [addLog_log, List.mem_cons] at *
        refine ⟨?_, ?_, ?_, ?_, ?_⟩
        · intro y s h
          rcases h with h | h
          · simp at h
            exact ⟨Or.inl h.1, h.1 ▸ hex⟩
          · obtain ⟨hm, hfy⟩ := p1 y s h
            exact ⟨Or.inr hm, hfy⟩
        · intro y s h
          rcases h with h | h
          · simp at h
            obtain ⟨h1, h2⟩ := h
            subst h1
            subst h2
            unfold stepMatches
            rw [hf]
          · exact p2 y s h
        · intro y h
          rcases h with h | h
          · simp at h
          · rcases p3 y h with hne | ⟨y', hy', hm⟩
            · exact Or.inl hne
            · exact Or.inr ⟨y', hy', Or.inr hm⟩
        · intro y h
          rcases h with h | h
          · simp at h
          · obtain ⟨hacc, hall⟩ := p4 y h
            refine ⟨hacc, ?_⟩
            intro y' h'
            rcases h' with h' | h'
            · simp at h'
            · exact hall y' h'
        · intro y hy hfy
          rcases hy with heq | hm
          · subst heq
            exact Or.inl ⟨.skippedNotFound, Or.inl rfl⟩
          · rcases p5 y hm hfy with ⟨s, hs⟩ | ⟨y', hy', hm'⟩
            · exact Or.inl ⟨s, Or.inr hs⟩
            · exact Or.inr ⟨y', hy', Or.inr hm'⟩
      | err =>
        rw [fetchLoop_cons_err fetch ex y0 ys acc den hex hf]
        obtain ⟨p1, p2, p3, p4, p5⟩ := ih hp' acc den
        simp only [addLog_log, List.mem_cons] at *
        refine ⟨?_, ?_, ?_, ?_, ?_⟩
        · intro y s h
          rcases h with h | h
          · simp at h
            exact ⟨Or.inl h.1, h.1 ▸ hex⟩
          · obtain ⟨hm, hfy⟩ := p1 y s h
            exact ⟨Or.inr hm, hfy⟩
        · intro y s h
          rcases h with h | h
          · simp at h
            obtain ⟨h1, h2⟩ := h
            subst h1
            subst h2
            unfold stepMatches
            rw [hf]
          · exact p2 y s h
        · intro y h
          rcases h with h | h
          · simp at h
          · rcases p3 y h with hne | ⟨y', hy', hm⟩
            · exact Or.inl hne
            · exact Or.inr ⟨y', hy', Or.inr hm⟩
        · intro y h
          rcases h with h | h
          · simp at h
          · obtain ⟨hacc, hall⟩ := p4 y h
            refine ⟨hacc, ?_⟩
            intro y' h'
            rcases h' with h' | h'
            · simp at h'
            · exact hall y' h'
        · intro y hy hfy
          rcases hy with heq | hm
          · subst heq
            exact Or.inl ⟨.skippedError, Or.inl rfl⟩
          · rcases p5 y hm hfy with ⟨s, hs⟩ | ⟨y', hy', hm'⟩
            · exact Or.inl ⟨s, Or.inr hs⟩
            · exact Or.inr ⟨y', hy', Or.inr hm'⟩

theorem yearsDesc_pairwise (s e : Nat) : (yearsDesc s e).Pairwise (· > ·) := by
  unfold yearsDesc
  rw [List.pairwise_reverse]
  apply List.Pairwise.imp ?_ (List.pairwise_lt_range' s _)
  intro a b hab
  exact hab

/-- C7: in a backfill run (processed newest-first), every probed year's
outcome follows the per-year policy (`stepMatches`: all-zero gives skip or
stop, NotFound gives skip, any other error gives a logged skip); a stop
occurs only after an acceptance at a newer year; an all-zero year with an
acceptance at a newer year does stop; an all-zero skip happens only when no
newer year was accepted; and every missing year in range is probed unless a
stop occurred at a newer year — so no single year's failure aborts the
run. -/
theorem backfill_error_tolerance (fetch : Nat → FetchOutcome) (ex : Nat → Bool)
    (startYear endYear : Nat) :
    (∀ y s, (y, s) ∈ (fetchMissingBalanceSheets fetch ex startYear endYear).2.2 →
      stepMatches fetch y s) ∧
    (∀ y, (y, .stoppedZero) ∈ (fetchMissingBalanceSheets fetch ex startYear endYear).2.2 →
      ∃ y', y' > y ∧
        (y', .accepted) ∈ (fetchMissingBalanceSheets fetch ex startYear endYear).2.2) ∧
    (∀ y s dto d,
      (y, s) ∈ (fetchMissingBalanceSheets fetch ex startYear endYear).2.2 →
      fetch y = .ok dto d → areAllIndicatorsZero dto.indicators = true →
      (∃ y', y' > y ∧
        (y', .accepted) ∈ (fetchMissingBalanceSheets fetch ex startYear endYear).2.2) →
      s = .stoppedZero) ∧
    (∀ y, (y, .skippedZero) ∈ (fetchMissingBalanceSheets fetch ex startYear endYear).2.2 →
      ∀ y', (y', .accepted) ∈ (fetchMissingBalanceSheets fetch ex startYear endYear).2.2 →
        y' < y) ∧
    (∀ y, y ∈ yearsDesc (max startYear 2014) endYear → ex y = false →
      (∃ s, (y, s) ∈ (fetchMissingBalanceSheets fetch ex startYear endYear).2.2) ∨
      ∃ y', y' > y ∧
        (y', .stoppedZero) ∈ (fetchMissingBalanceSheets fetch ex startYear endYear).2.2) := by
  obtain ⟨p1, p2, p3, p4, p5⟩ :=
    fetchLoop_props fetch ex (yearsDesc (max startYear 2014) endYear)
      (yearsDesc_pairwise _ _) [] none
  refine ⟨p2, ?_, ?_, ?_, p5⟩
  · intro y h
    rcases p3 y h with habs | hex
    · exact absurd rfl habs
    · exact hex
  · intro y s dto d hmem hfy hzero hacc
    have hsm := p2 y s hmem
    unfold stepMatches at hsm
    rw [hfy] at hsm
    simp only [hzero, if_true] at hsm
    rcases hsm with hsz | hst
    · exfalso
      subst hsz
      obtain ⟨y', hy', hm'⟩ := hacc
      have := (p4 y hmem).2 y' hm'
      omega
    · exact hst
  · intro y h
    exact (p4 y h).2

/-- C7 witness oracle: 2024 succeeds with a non-zero sheet, everything else
raises a generic error. -/
def c7Fetch (y : Nat) : FetchOutcome :=
  if y = 2024 then .ok ⟨2024, [(['v'], 1)]⟩ none else .err

theorem backfill_error_tolerance_witness :
    (∃ s, (2023, s) ∈
      (fetchMissingBalanceSheets c7Fetch (fun _ => false) 2023 2024).2.2) ∨
    ∃ y', y' > 2023 ∧ (y', YearStep.stoppedZero) ∈
      (fetchMissingBalanceSheets c7Fetch (fun _ => false) 2023 2024).2.2 :=
  (backfill_error_tolerance c7Fetch (fun _ => false) 2023 2024).2.2.2.2
    2023 (by decide) rfl

/-- C10: an empty indicator map counts as "all indicators zero" —
`areAllIndicatorsZero` is (vacuously) true on an empty object — so an
empty-indicator sheet is filtered out of every result set
(`getAllBalanceSheetsForCui`) and, in the backfill loop, takes exactly the
all-zero path: stop when a sheet was already accepted in the run, skip and
continue otherwise. -/
theorem empty_indicators_all_zero :
    areAllIndicatorsZero [] = true ∧
    (∀ (stored : List BalanceSheetDTO) (dto : BalanceSheetDTO),
      dto.indicators = [] → dto ∉ getAllBalanceSheetsForCui stored) ∧
    (∀ (fetch : Nat → FetchOutcome) (ex : Nat → Bool) (y : Nat) (ys : List Nat)
      (acc : List BalanceSheetDTO) (den : Option (List Char))
      (dto : BalanceSheetDTO) (denC : Option (List Char)),
      ex y = false → fetch y = .ok dto denC → dto.indicators = [] → acc ≠ [] →
      fetchLoop fetch ex (y :: ys) acc den =
        (acc, denCaenUpdate den denC, [(y, .stoppedZero)])) ∧
    (∀ (fetch : Nat → FetchOutcome) (ex : Nat → Bool) (y : Nat) (ys : List Nat)
      (den : Option (List Char)) (dto : BalanceSheetDTO) (denC : Option (List Char)),
      ex y = false → fetch y = .ok dto denC → dto.indicators = [] →
      fetchLoop fetch ex (y :: ys) [] den =
        addLog (y, .skippedZero) (fetchLoop fetch ex ys [] (denCaenUpdate den denC))) := by
  refine ⟨rfl, ?_, ?_, ?_⟩
  · intro stored dto hind hmem
    unfold getAllBalanceSheetsForCui at hmem
    have := List.of_mem_filter hmem
    rw [hind] at this
    simp [areAllIndicatorsZero] at this
  · intro fetch ex y ys acc den dto denC hex hf hind hacc
    exact fetchLoop_cons_stop fetch ex y ys acc den dto denC hex hf
      (by rw [hind]; rfl) hacc
  · intro fetch ex y ys den dto denC hex hf hind
    exact fetchLoop_cons_skipZero fetch ex y ys den dto denC hex hf
      (by rw [hind]; rfl)

theorem empty_indicators_all_zero_witness :
    fetchLoop (fun _ => .ok ⟨2024, []⟩ none) (fun _ => false) [2024]
        [⟨2025, [(['v'], 1)]⟩] none =
      ([⟨2025, [(['v'], 1)]⟩], none, [(2024, .stoppedZero)]) :=
  empty_indicators_all_zero.2.2.1 (fun _ => .ok ⟨2024, []⟩ none) (fun _ => false)
    2024 [] [⟨2025, [(['v'], 1)]⟩] none ⟨2024, []⟩ none rfl rfl rfl (by decide)

/-! ## Mirror cache (`getBalanceSheet` / `isDataStale`)

Source: the mirror manager.  The persistent store's row for the
`(cui, year)` key is the `record?` argument (holding the payload and its
`lastUpdated`); the result carries, besides the returned DTO and `source`
string, the row after the call.  `fetchBalanceSheetFromAnaf`'s result (the
DTO plus the optional `den_caen`) is the `fetchResult` argument; the
non-fatal `updateDenumireCaen` side write (wrapped in its own try/catch) has
no effect on this function's result and store row and is not modelled. -/

/-- Errors `getBalanceSheet` can throw: the invalid-CUI validation error, or
the origin-fetch error propagated unmodified (the `E` payload is preserved
as-is). -/
inductive MirrorError (E : Type) where
  | invalidCui
  | fetchError (e : E)
deriving DecidableEq

/-- `isDataStale`: the source computes
`hoursDiff = (now - lastUpdated) / 3600000` in floating point and tests
`hoursDiff > env.dataFreshnessHours`; for epoch-millisecond timestamps
(far below `2^53`) this is exactly the integer comparison
`now - lastUpdated > freshnessHours * 3600000`. -/
def isDataStale (now lastUpdated freshnessHours : Int) : Bool :=
  decide (now - lastUpdated > freshnessHours * 3600000)

/-- A stored balance-sheet row: payload plus `lastUpdated`. -/
structure BalanceRecord where
  dto : BalanceSheetDTO
  lastUpdated : Int
deriving DecidableEq

/-- The `source` string `'ANAF (new)'`. -/
def anafNewSource : List Char := ['A', 'N', 'A', 'F', ' ', '(', 'n', 'e', 'w', ')']

/-- The `source` string `'ANAF (updated)'`. -/
def anafUpdatedSource : List Char :=
  ['A', 'N', 'A', 'F', ' ', '(', 'u', 'p', 'd', 'a', 't', 'e', 'd', ')']

/-- `getBalanceSheet`: validate the CUI; serve the stored row if present and
fresh (`source = env.authorName`); otherwise fetch from the origin — a fetch
error propagates (no stale fallback) — and on success upsert the row and
report `'ANAF (new)'` or `'ANAF (updated)'` according to whether a prior row
existed. -/
def getBalanceSheet {E : Type} (cui : List Char) (record? : Option BalanceRecord)
    (now freshnessHours : Int) (authorName : List Char)
    (fetchResult : Except E (BalanceSheetDTO × Option (List Char))) :
    Except (MirrorError E) (BalanceSheetDTO × List Char × Option BalanceRecord) :=
  if !validateCui cui then .error .invalidCui
  else
    match record? with
    | some r =>
      if !isDataStale now r.lastUpdated freshnessHours then
        .ok (r.dto, authorName, record?)
      else
        match fetchResult with
        | .error e => .error (.fetchError e)
        | .ok (dto, _) => .ok (dto, anafUpdatedSource, some ⟨dto, now⟩)
    | none =>
      match fetchResult with
      | .error e => .error (.fetchError e)
      | .ok (dto, _) => .ok (dto, anafNewSource, some ⟨dto, now⟩)

/-- C1: for a valid key, `getBalanceSheet` serves the stored payload with
the cache provenance (`authorName`) exactly when a row exists and
`now - lastUpdated` is at most the freshness threshold; otherwise it uses
the origin fetch: on success it persists the result (`lastUpdated = now`)
and reports `'ANAF (new)'` when no prior row existed and `'ANAF (updated)'`
when a stale row existed; on failure the fetch error propagates unmodified
and the stale row is never served. -/
theorem mirror_get_balance_sheet {E : Type} (cui : List Char)
    (record? : Option BalanceRecord) (now freshnessHours : Int)
    (authorName : List Char)
    (fetchResult : Except E (BalanceSheetDTO × Option (List Char)))
    (hval : validateCui cui = true) :
    (∀ r, record? = some r → now - r.lastUpdated ≤ freshnessHours * 3600000 →
      getBalanceSheet cui record? now freshnessHours authorName fetchResult =
        .ok (r.dto, authorName, record?)) ∧
    (∀ dto d, record? = none → fetchResult = .ok (dto, d) →
      getBalanceSheet cui record? now freshnessHours authorName fetchResult =
        .ok (dto, anafNewSource, some ⟨dto, now⟩)) ∧
    (∀ r dto d, record? = some r → now - r.lastUpdated > freshnessHours * 3600000 →
      fetchResult = .ok (dto, d) →
      getBalanceSheet cui record? now freshnessHours authorName fetchResult =
        .ok (dto, anafUpdatedSource, some ⟨dto, now⟩)) ∧
    (∀ e, fetchResult = .error e →
      (record? = none ∨
        ∀ r, record? = some r → now - r.lastUpdated > freshnessHours * 3600000) →
      getBalanceSheet cui record? now freshnessHours authorName fetchResult =
        .error (.fetchError e)) := by
  refine ⟨?_, ?_, ?_, ?_⟩
  · intro r hrec hfresh
    subst hrec
    have hstale : isDataStale now r.lastUpdated freshnessHours = false := by
      simp [isDataStale]
      omega
    simp [getBalanceSheet, hval, hstale]
  · intro dto d hrec hfetch
    subst hrec
    subst hfetch
    simp [getBalanceSheet, hval]
  · intro r dto d hrec hstale hfetch
    subst hrec
    subst hfetch
    have hs : isDataStale now r.lastUpdated freshnessHours = true := by
      simp [isDataStale]
      omega
    simp [getBalanceSheet, hval, hs]
  · intro e hfetch hmiss
    subst hfetch
    cases hrec : record? with
    | none => simp [getBalanceSheet, hval]
    | some r =>
      rcases hmiss with habs | hstale
      · rw [hrec] at habs
        exact absurd habs (by simp)
      · have hs : isDataStale now r.lastUpdated freshnessHours = true := by
          simp [isDataStale]
          have := hstale r hrec
          omega
        simp [getBalanceSheet, hval, hs]

theorem mirror_get_balance_sheet_witness :
    getBalanceSheet (E := List Char) ['1', '2', '3']
        (some ⟨⟨2024, [(['v'], 7)]⟩, 500⟩) 1000 24 ['e']
        (.error ['b', 'o', 'o', 'm']) =
      .ok (⟨2024, [(['v'], 7)]⟩, ['e'], some ⟨⟨2024, [(['v'], 7)]⟩, 500⟩) :=
  (mirror_get_balance_sheet ['1', '2', '3'] (some ⟨⟨2024, [(['v'], 7)]⟩, 500⟩)
    1000 24 ['e'] (.error ['b', 'o', 'o', 'm']) (by decide)).1
    ⟨⟨2024, [(['v'], 7)]⟩, 500⟩ rfl (by decide)

/-! ## Rate limiter (`rateLimitMiddleware`)

Source: the rate-limit middleware.  The per-IP store entry is the `entry?`
argument; the result is the stored entry after the request, whether the
request is allowed, and (when denied) the `Retry-After` seconds. -/

/-- A rate-limit store entry: `{count, resetTime}`. -/
structure RateLimitEntry where
  count : Nat
  resetTime : Int
deriving DecidableEq

/-- `Math.ceil(x / 1000)` on integers (Lean's `Int` division is floor
division, so the ceiling is `-((-x) / 1000)`). -/
def ceilDiv1000 (x : Int) : Int := -(-x / 1000)

/-- One admission check of `rateLimitMiddleware` for a client key: reset the
entry on a first request or an expired window (`now > resetTime`), otherwise
increment; deny exactly when the updated count exceeds `maxRequests`, with
`retryAfter = Math.ceil((resetTime - now) / 1000)` (third component; `0`
when allowed). -/
def rateLimitCheck (entry? : Option RateLimitEntry) (now windowMs : Int)
    (maxRequests : Nat) : RateLimitEntry × Bool × Int :=
  let entry : RateLimitEntry :=
    match entry? with
    | none => ⟨1, now + windowMs⟩
    | some e =>
      if now > e.resetTime then ⟨1, now + windowMs⟩ else ⟨e.count + 1, e.resetTime⟩
  if entry.count > maxRequests then
    (entry, false, ceilDiv1000 (entry.resetTime - now))
  else (entry, true, 0)

/-- A sequence of requests from one client key at the given times, threading
the stored entry; returns the (allowed, retryAfter) pair per request. -/
def rateLimitSequence (windowMs : Int) (maxRequests : Nat) :
    List Int → Option RateLimitEntry → List (Bool × Int)
  | [], _ => []
  | t :: ts, entry? =>
    ((rateLimitCheck entry? t windowMs maxRequests).2.1,
      (rateLimitCheck entry? t windowMs maxRequests).2.2) ::
      rateLimitSequence windowMs maxRequests ts
        (some (rateLimitCheck entry? t windowMs maxRequests).1)

/-- `ceilDiv1000` is the ceiling of `x / 1000`: it is the least integer `q`
with `x ≤ 1000 * q`. -/
theorem ceilDiv1000_spec (x : Int) :
    1000 * (ceilDiv1000 x - 1) < x ∧ x ≤ 1000 * ceilDiv1000 x := by
  unfold ceilDiv1000
  constructor <;> omega

/-- C9: a first request for a key, or a first request after `windowEnd`
has passed, resets the entry to `{count 1, resetTime now + windowMs}` and is
allowed; otherwise the count is incremented and the request is denied
exactly when `count > maxRequests`, with
`retryAfter = ceil((resetTime - now)/1000)`; and in the spec's scenario
(`maxRequests = 3`, `windowMs = 1000`, requests at 0, 100, 200, 300, 1001)
the 4th request is denied with retryAfter 1 > 0 and the 5th, after
`windowEnd`, is allowed with the count reset to 1. -/
theorem rate_limiter_fixed_window (entry? : Option RateLimitEntry)
    (now windowMs : Int) (maxRequests : Nat) (hmax : 1 ≤ maxRequests) :
    (entry? = none →
      rateLimitCheck entry? now windowMs maxRequests =
        (⟨1, now + windowMs⟩, true, 0)) ∧
    (∀ e, entry? = some e → now > e.resetTime →
      rateLimitCheck entry? now windowMs maxRequests =
        (⟨1, now + windowMs⟩, true, 0)) ∧
    (∀ e, entry? = some e → ¬(now > e.resetTime) →
      (rateLimitCheck entry? now windowMs maxRequests).1 =
        ⟨e.count + 1, e.resetTime⟩ ∧
      ((rateLimitCheck entry? now windowMs maxRequests).2.1 = false ↔
        e.count + 1 > maxRequests) ∧
      (e.count + 1 > maxRequests →
        (rateLimitCheck entry? now windowMs maxRequests).2.2 =
          ceilDiv1000 (e.resetTime - now))) ∧
    (rateLimitSequence 1000 3 [0, 100, 200, 300, 1001] none =
      [(true, 0), (true, 0), (true, 0), (false, 1), (true, 0)] ∧
    (rateLimitCheck (some ⟨3, 1000⟩) 1001 1000 3).1.count = 1) := by
  have hno1 : ¬(1 > maxRequests) := by omega
  refine ⟨?_, ?_, ?_, by decide, by decide⟩
  · intro hrec
    subst hrec
    simp [rateLimitCheck, hno1]
  · intro e hrec hexp
    subst hrec
    simp [rateLimitCheck, hexp, hno1]
  · intro e hrec hlive
    subst hrec
    by_cases hover : e.count + 1 > maxRequests
    · simp [rateLimitCheck, hlive, hover]
    · simp [rateLimitCheck, hlive, hover]

theorem rate_limiter_fixed_window_witness :
    (rateLimitCheck (some ⟨3, 1000⟩) 300 1000 3).1 = ⟨3 + 1, 1000⟩ ∧
    ((rateLimitCheck (some ⟨3, 1000⟩) 300 1000 3).2.1 = false ↔ 3 + 1 > 3) ∧
    (3 + 1 > 3 →
      (rateLimitCheck (some ⟨3, 1000⟩) 300 1000 3).2.2 = ceilDiv1000 (1000 - 300)) :=
  (rate_limiter_fixed_window (some ⟨3, 1000⟩) 300 1000 3 (by decide)).2.2.1
    ⟨3, 1000⟩ rfl (by decide)

end Datacore
